import Mathlib

/-!
Shallow embedding of the dots-ocr-editor Flask application (`src/app.py`):
the catalog scanner (`get_available_files`), the navigator (`navigate`),
the SQLite-backed record store (`save_page_to_db`, `get_page_from_db`,
`validate_page`), the page resolver (`load_file`), the save route
(`save_file`) and the export route (`export_data`).

JSON objects are modelled as ordered association lists (Python dicts keep
insertion order); SQLite tables are modelled as lists of rows inside an
explicit `DB` state; wall-clock timestamps and uuid generation are passed
in as parameters (`now : Nat`, `uuid : Nat → String` with a counter).
-/

/-- A JSON scalar value, as far as the application inspects one.  Geometry
and other OCR-provided fields are passed through opaquely, so scalars are
enough to model every field the code reads or writes. -/
inductive JVal where
  | str : String → JVal
  | num : Int → JVal
  | boolean : Bool → JVal
  | null : JVal
deriving DecidableEq, Repr

/-- One bounding-box item: a Python dict, i.e. an insertion-ordered
association list from string keys to values. -/
abbrev Item := List (String × JVal)

/-- `k in item` on a Python dict. -/
def dictHasKey (d : Item) (k : String) : Bool :=
  d.any (fun kv => kv.1 = k)

/-- `item[k] = v` on a Python dict: overwrite in place if the key exists
(keeping its position), otherwise append the new key at the end. -/
def dictSet (d : Item) (k : String) (v : JVal) : Item :=
  if dictHasKey d k then
    d.map (fun kv => if kv.1 = k then (k, v) else kv)
  else d ++ [(k, v)]

/-- `str.startswith` (char-list implementation, so that concrete
instances reduce inside the kernel). -/
def pyStartsWith (s pre : String) : Bool :=
  pre.data.isPrefixOf s.data

/-- `str.endswith`. -/
def pyEndsWith (s suf : String) : Bool :=
  suf.data.isSuffixOf s.data

/-- `c in s` for a single character. -/
def pyContainsChar (s : String) (c : Char) : Bool :=
  s.data.any (fun x => x = c)

/-- `str.split` on a single separator character: splitting the empty
string yields `[""]`, and every separator occurrence starts a new piece. -/
def splitChar (c : Char) : List Char → List (List Char)
  | [] => [[]]
  | x :: rest =>
    let r := splitChar c rest
    if x = c then [] :: r
    else
      match r with
      | [] => [[x]]
      | h :: t => (x :: h) :: t

/-- `s.split('/')`. -/
def pySplitSlash (s : String) : List String :=
  (splitChar '/' s.data).map (fun l => ⟨l⟩)

/-- One fuel-indexed step list for `str.replace`: scan left to right; on
a (non-empty) pattern match emit the replacement and skip the match,
otherwise keep one character.  The fuel (the input length) makes the
recursion structural so concrete instances reduce in the kernel. -/
def replaceFuel (pat repl : List Char) : Nat → List Char → List Char
  | 0, cs => cs
  | _ + 1, [] => []
  | fuel + 1, x :: rest =>
    if pat.isPrefixOf (x :: rest) then
      repl ++ replaceFuel pat repl fuel (rest.drop (pat.length - 1))
    else x :: replaceFuel pat repl fuel rest

/-- `str.replace` for a non-empty pattern (every use in the application
has a non-empty pattern): every occurrence is replaced, scanning left to
right without overlap. -/
def pyReplace (s pat repl : String) : String :=
  if pat = "" then s else ⟨replaceFuel pat.data repl.data s.data.length s.data⟩

/-- `os.path.join` for POSIX paths as the application uses it. -/
def pyJoin (d f : String) : String :=
  if pyStartsWith f "/" then f
  else if d = "" then f
  else if pyEndsWith d "/" then d ++ f
  else d ++ "/" ++ f

/-- `os.path.basename`: everything after the last slash. -/
def pyBasename (p : String) : String :=
  (pySplitSlash p).getLastD ""

/-- Index of the last `/` in a character list, if any. -/
def lastSlashIdx (cs : List Char) : Option Nat :=
  (cs.reverse.findIdx? (fun c => c = '/')).map (fun j => cs.length - 1 - j)

/-- Drop trailing slashes. -/
def rstripSlashes (cs : List Char) : List Char :=
  (cs.reverse.dropWhile (fun c => c = '/')).reverse

/-- `os.path.dirname` (posixpath): the prefix up to and including the last
slash, with trailing slashes stripped unless the prefix is all slashes. -/
def pyDirname (p : String) : String :=
  match lastSlashIdx p.data with
  | none => ""
  | some i =>
    let head := p.data.take (i + 1)
    if head.all (fun c => c = '/') then ⟨head⟩ else ⟨rstripSlashes head⟩

/-- `os.path.relpath p d` for the scanner's use, where `p` lies at or
under the start directory `d` (which holds for every path built by
`os.walk(d)`). -/
def pyRelpath (p d : String) : String :=
  if p = d then "."
  else if pyStartsWith p (d ++ "/") then ⟨p.data.drop (d.data.length + 1)⟩ else p

/-- The folder name derived in `save_file`/`load_file`:
`os.path.dirname(file_path).split('/')[-1] if '/' in file_path else 'Root'`. -/
def folderNameOf (p : String) : String :=
  if pyContainsChar p '/' then (pySplitSlash (pyDirname p)).getLastD "" else "Root"

/-- The page name derived in `save_file`/`load_file`:
`os.path.basename(file_path).replace('.json', '')` (Python `replace`
removes every occurrence). -/
def pageNameOf (p : String) : String :=
  pyReplace (pyBasename p) ".json" ""

/-! ## Catalog scanner (`get_available_files`) -/

/-- Longest prefix of decimal digits. -/
def digitRun : List Char → List Char
  | [] => []
  | c :: rest => if c.isDigit then c :: digitRun rest else []

/-- Decimal value of a digit list (`int(...)` on the captured group). -/
def digitsToNat (cs : List Char) : Nat :=
  cs.foldl (fun acc c => acc * 10 + (c.toNat - '0'.toNat)) 0

/-- Try to match the regex `page_(\d+)` at the head of the character
list: the literal `page_` followed by at least one digit; the capture is
the maximal digit run. -/
def matchPageAt (cs : List Char) : Option Nat :=
  match cs with
  | 'p' :: 'a' :: 'g' :: 'e' :: '_' :: rest =>
    let ds := digitRun rest
    if ds = [] then none else some (digitsToNat ds)
  | _ => none

/-- `re.search(r'page_(\d+)', s)`: leftmost match wins. -/
def searchPageNum : List Char → Option Nat
  | [] => none
  | c :: rest =>
    match matchPageAt (c :: rest) with
    | some n => some n
    | none => searchPageNum rest

/-- `int(page_match.group(1)) if page_match else 0`. -/
def pageNumOf (filename : String) : Nat :=
  (searchPageNum filename.data).getD 0

/-- The extension list `['.png', '.jpg', '.jpeg']`, in source order. -/
def image_extensions : List String := [".png", ".jpg", ".jpeg"]

/-- The `possible_names` list built for one extension:
`[base + '_original' + ext, base + ext, base + '_annotated' + ext]`. -/
def possibleNames (base ext : String) : List String :=
  [base ++ "_original" ++ ext, base ++ ext, base ++ "_annotated" ++ ext]

/-- The inner loop over `possible_names`: first name whose joined path
exists wins. -/
def firstExisting (ex : String → Bool) (root : String) : List String → Option String
  | [] => none
  | n :: rest =>
    if ex (pyJoin root n) then some (pyJoin root n) else firstExisting ex root rest

/-- The outer loop over `image_extensions`: the first extension that
yields an existing candidate stops the search (the code `break`s out of
the extension loop once `image_path` is set). -/
def findImageAux (ex : String → Bool) (root base : String) : List String → Option String
  | [] => none
  | ext :: rest =>
    match firstExisting ex root (possibleNames base ext) with
    | some p => some p
    | none => findImageAux ex root base rest

/-- Image lookup for one JSON file's base name. -/
def findImage (ex : String → Bool) (root base : String) : Option String :=
  findImageAux ex root base image_extensions

/-- One catalog entry, as appended to `files_by_folder[folder_name]`. -/
structure Entry where
  name : String
  json_path : String
  image_path : String
  full_json_path : String
  full_image_path : String
  page_num : Nat
  folder : String
deriving DecidableEq, Repr

/-- `files_by_folder.setdefault(folder_name, []).append(e)`: append to an
existing key's list, else add the key at the end (dict insertion order). -/
def dictAppend (d : List (String × List Entry)) (k : String) (e : Entry) :
    List (String × List Entry) :=
  if d.any (fun kv => kv.1 = k) then
    d.map (fun kv => if kv.1 = k then (kv.1, kv.2 ++ [e]) else kv)
  else d ++ [(k, [e])]

/-- Body of the `for filename in filenames` loop: JSON files with a
matching image are appended to their folder's list; a JSON file with no
matching image falls through without touching the accumulator. -/
def processFile (ex : String → Bool) (data_dir root folder_name : String)
    (acc : List (String × List Entry)) (filename : String) :
    List (String × List Entry) :=
  if pyEndsWith filename ".json" then
    let json_path := pyJoin root filename
    let base_name := pyReplace filename ".json" ""
    match findImage ex root base_name with
    | none => acc
    | some image_path =>
      dictAppend acc folder_name
        { name := base_name
          json_path := pyRelpath json_path data_dir
          image_path := pyRelpath image_path data_dir
          full_json_path := json_path
          full_image_path := image_path
          page_num := pageNumOf filename
          folder := folder_name }
  else acc

/-- The `os.walk` traversal, before sorting: `walk` is the list of
`(root, filenames)` pairs the traversal yields, in traversal order. -/
def collectFiles (ex : String → Bool) (data_dir : String)
    (walk : List (String × List String)) : List (String × List Entry) :=
  if ex data_dir then
    walk.foldl
      (fun acc rf =>
        let folder_name :=
          if pyBasename rf.1 = pyBasename data_dir then "Root" else pyBasename rf.1
        rf.2.foldl (processFile ex data_dir rf.1 folder_name) acc)
      []
  else []

/-- `key=lambda x: x['page_num']` comparison for `list.sort` (stable). -/
def lePage (a b : Entry) : Bool := decide (a.page_num ≤ b.page_num)

/-- Key comparison for `sorted(files_by_folder.items())`: tuples with
unique first components compare by the folder name. -/
def leKey (a b : String × List Entry) : Bool := decide (a.1 ≤ b.1)

/-- `get_available_files`: collect, sort each folder's list by page
number (Python `list.sort` is stable, modelled by `mergeSort`), then sort
the folders by name. -/
def get_available_files (ex : String → Bool) (data_dir : String)
    (walk : List (String × List String)) : List (String × List Entry) :=
  let fbf := collectFiles ex data_dir walk
  let fbf := fbf.map (fun kv => (kv.1, kv.2.mergeSort lePage))
  fbf.mergeSort leKey

/-! ## Navigator (`navigate`) -/

/-- The successful navigate response payload. -/
structure NavOk where
  json_path : String
  image_path : String
  name : String
  page_num : Nat
  current_page : Nat
  total_pages : Nat
  folder : String
deriving DecidableEq, Repr

/-- Outcome of the navigate route: an HTTP error code or a payload. -/
inductive NavResult where
  | err : Nat → NavResult
  | ok : NavOk → NavResult
deriving DecidableEq, Repr

/-- The inner `for i, file_info in enumerate(files)` search: first entry
whose `json_path` equals the requested path, reported with its index. -/
def findInFiles : List Entry → String → Nat → Option Nat
  | [], _, _ => none
  | f :: rest, p, i =>
    if f.json_path = p then some i else findInFiles rest p (i + 1)

/-- The outer folder loop.  After each folder Python checks
`if current_folder: break`, so a match inside a folder named `""` (falsy)
records the position but keeps scanning, and a later match overwrites it. -/
def findCurrent : List (String × List Entry) → String → Option (String × Nat) →
    Option (String × Nat)
  | [], _, acc => acc
  | (fn, fs) :: rest, p, acc =>
    match findInFiles fs p 0 with
    | some i => if fn = "" then findCurrent rest p (some (fn, i)) else some (fn, i)
    | none => findCurrent rest p acc

/-- `files_by_folder[current_folder]` (a Python dict lookup). -/
def pyDictGet : List (String × List Entry) → String → Option (List Entry)
  | [], _ => none
  | (k', v) :: rest, k => if k' = k then some v else pyDictGet rest k

/-- The `/api/navigate` route.  The new index is computed with Python's
`%`, which agrees with `Int.emod` for a positive divisor.  The two
`err 500` branches are unreachable for well-formed catalogs (a `KeyError`
or `IndexError` would surface as a 500 in Flask). -/
def navigate (catalog : List (String × List Entry)) (current_path direction : String) :
    NavResult :=
  if current_path = "" ∨ direction = "" then .err 400
  else
    match findCurrent catalog current_path none with
    | none => .err 404
    | some (fname, i) =>
      match pyDictGet catalog fname with
      | none => .err 500
      | some files =>
        let n := files.length
        let newIndex : Int :=
          if direction = "next" then ((i : Int) + 1) % (n : Int)
          else ((i : Int) - 1) % (n : Int)
        match files[newIndex.toNat]? with
        | none => .err 500
        | some f =>
          .ok ⟨f.json_path, f.image_path, f.name, f.page_num,
               newIndex.toNat + 1, n, fname⟩

/-! ## Record store (SQLite tables) and routes -/

/-- A row of the `pages` table. -/
structure PageRow where
  id : Nat
  file_path : String
  folder_name : String
  page_name : String
  bbox_data : List Item
  is_validated : Bool
  last_modified : Nat
  created_at : Nat
deriving DecidableEq, Repr

/-- A row of the `validation_log` table. -/
structure VLogRow where
  page_id : Nat
  validated_at : Nat
deriving DecidableEq, Repr

/-- A row of the `exports_log` table. -/
structure ELogRow where
  export_type : String
  export_scope : String
  file_count : Nat
  exported_at : Nat
deriving DecidableEq, Repr

/-- The database state.  `nextId` models the AUTOINCREMENT counter of the
`pages` table; timestamps (`datetime.now()` and the SQLite
`CURRENT_TIMESTAMP` defaults) are modelled by the `now` parameter of each
operation. -/
structure DB where
  pages : List PageRow
  vlog : List VLogRow
  elog : List ELogRow
  nextId : Nat
deriving DecidableEq, Repr

/-- `save_page_to_db`: `INSERT OR REPLACE INTO pages (file_path,
folder_name, page_name, bbox_data, last_modified) VALUES (...)`.  SQLite's
REPLACE resolution deletes any row conflicting on the UNIQUE `file_path`
and inserts a brand-new row, so the unlisted columns take their column
defaults: `is_validated` becomes FALSE, `created_at` becomes the current
timestamp, and the rowid is freshly assigned. -/
def save_page_to_db (db : DB) (now : Nat) (file_path folder_name page_name : String)
    (bbox_data : List Item) : DB :=
  { db with
    pages := db.pages.filter (fun r => decide (r.file_path ≠ file_path)) ++
      [{ id := db.nextId
         file_path := file_path
         folder_name := folder_name
         page_name := page_name
         bbox_data := bbox_data
         is_validated := false
         last_modified := now
         created_at := now }]
    nextId := db.nextId + 1 }

/-- `get_page_from_db`: `SELECT * FROM pages WHERE file_path = ?`,
`fetchone()`. -/
def get_page_from_db (db : DB) (file_path : String) : Option PageRow :=
  db.pages.find? (fun r => decide (r.file_path = file_path))

/-- The `for i, item in enumerate(data)` annotation loop of `load_file`
(and `upload_files`): give every item an `id` (a fresh uuid, drawn from
the supply `uuid` at the running counter) and a `reading_order` (its
position) when missing.  Returns the annotated items and the advanced
uuid counter. -/
def annotateItems (uuid : Nat → String) : List Item → Nat → Nat → List Item × Nat
  | [], _, ctr => ([], ctr)
  | item :: rest, i, ctr =>
    let withId :=
      if dictHasKey item "id" then (item, ctr)
      else (dictSet item "id" (JVal.str (uuid ctr)), ctr + 1)
    let item2 :=
      if dictHasKey withId.1 "reading_order" then withId.1
      else dictSet withId.1 "reading_order" (JVal.num i)
    let restOut := annotateItems uuid rest (i + 1) withId.2
    (item2 :: restOut.1, restOut.2)

/-- Outcome of the `/api/load_file` route: `ok data is_validated
last_modified source` mirrors the JSON response (the filesystem branch
has no `last_modified` field, modelled as `none`). -/
inductive LoadResult where
  | err : Nat → LoadResult
  | ok : List Item → Bool → Option Nat → String → LoadResult
deriving DecidableEq, Repr

/-- The `/api/load_file` route.  `fs` maps a full path to the parsed
content of the JSON file there, if it exists and parses.  Returns the
response, the database after the call, and the advanced uuid counter. -/
def load_file (db : DB) (data_dir : String) (fs : String → Option (List Item))
    (uuid : Nat → String) (ctr now : Nat) (file_path : Option String) :
    LoadResult × DB × Nat :=
  match file_path with
  | none => (.err 400, db, ctr)
  | some p =>
    if p = "" then (.err 400, db, ctr)
    else
      match get_page_from_db db p with
      | some row =>
        let ann := annotateItems uuid row.bbox_data 0 ctr
        (.ok ann.1 row.is_validated (some row.last_modified) "database", db, ann.2)
      | none =>
        match fs (pyJoin data_dir p) with
        | none => (.err 404, db, ctr)
        | some data =>
          let ann := annotateItems uuid data 0 ctr
          let db' := save_page_to_db db now p (folderNameOf p) (pageNameOf p) ann.1
          (.ok ann.1 false none "filesystem", db', ann.2)

/-- The identifier-stripping comprehension
`{k: v for k, v in item.items() if k not in ['id']}`, applied to every
item; the same comprehension appears verbatim in `save_file` and in
`export_data`. -/
def cleanItems (bbox_data : List Item) : List Item :=
  bbox_data.map (fun item => item.filter (fun kv => decide (kv.1 ∉ ["id"])))

/-- Outcome of the `/api/save_file` route: `ok saved_to_db saved_to_file`. -/
inductive SaveResult where
  | err : Nat → SaveResult
  | ok : Bool → Bool → SaveResult
deriving DecidableEq, Repr

/-- The `/api/save_file` route.  `not file_path or not bbox_data` rejects
a missing or empty path and a missing or empty item list alike (Python
truthiness).  The third component is the optional filesystem mirror
write: the full path written and the cleaned content. -/
def save_file (db : DB) (now : Nat) (data_dir : String) (file_path : Option String)
    (bbox_data : Option (List Item)) (save_to_filesystem : Bool) :
    SaveResult × DB × Option (String × List Item) :=
  match file_path, bbox_data with
  | some p, some items =>
    if p = "" ∨ items = [] then (.err 400, db, none)
    else
      let db' := save_page_to_db db now p (folderNameOf p) (pageNameOf p) items
      (.ok true save_to_filesystem, db',
        if save_to_filesystem then some (pyJoin data_dir p, cleanItems items) else none)
  | _, _ => (.err 400, db, none)

/-- Outcome of the `/api/validate_page` route. -/
inductive ValidateResult where
  | err : Nat → ValidateResult
  | ok : Bool → ValidateResult
deriving DecidableEq, Repr

/-- The `/api/validate_page` route: `UPDATE pages SET is_validated = ?
WHERE file_path = ?`; a zero rowcount returns 404 before anything is
committed; otherwise, when the new flag is true, `INSERT INTO
validation_log (page_id) SELECT id FROM pages WHERE file_path = ?`. -/
def validate_page (db : DB) (now : Nat) (file_path : Option String)
    (is_validated : Bool) : ValidateResult × DB :=
  match file_path with
  | none => (.err 400, db)
  | some p =>
    if p = "" then (.err 400, db)
    else
      let hits := db.pages.filter (fun r => decide (r.file_path = p))
      if hits.length = 0 then (.err 404, db)
      else
        let pages' := db.pages.map
          (fun r => if r.file_path = p then { r with is_validated := is_validated } else r)
        let newLog :=
          if is_validated then
            (pages'.filter (fun r => decide (r.file_path = p))).map
              (fun r => ({ page_id := r.id, validated_at := now } : VLogRow))
          else []
        (.ok is_validated, { db with pages := pages', vlog := db.vlog ++ newLog })

/-- Metadata document written next to each exported page. -/
structure Metadata where
  file_path : String
  folder_name : String
  page_name : String
  is_validated : Bool
  last_modified : Nat
  created_at : Nat
deriving DecidableEq, Repr

/-- Content of one ZIP entry: a cleaned item list (serialized with
`json.dumps`, modelled pre-serialization) or a metadata document. -/
inductive ZipContent where
  | items : List Item → ZipContent
  | metadata : Metadata → ZipContent
deriving DecidableEq, Repr

/-- Outcome of the `/api/export` route: an error code or the list of
`(entry name, content)` pairs written into the ZIP archive. -/
inductive ExportResult where
  | err : Nat → ExportResult
  | ok : List (String × ZipContent) → ExportResult
deriving DecidableEq, Repr

/-- The per-page pair of ZIP entries: `{page_name}.json` with the cleaned
items, then `{page_name}_metadata.json`. -/
def zipEntries : List PageRow → List (String × ZipContent)
  | [] => []
  | p :: rest =>
    (p.page_name ++ ".json", .items (cleanItems p.bbox_data)) ::
    (p.page_name ++ "_metadata.json",
      .metadata ⟨p.file_path, p.folder_name, p.page_name, p.is_validated,
                 p.last_modified, p.created_at⟩) ::
    zipEntries rest

/-- Python truthiness of an optional string request field. -/
def pyTruthy : Option String → Bool
  | none => false
  | some s => s ≠ ""

/-- The `/api/export` route: select rows by scope, 404 on an empty
selection, build the archive entries, and append an `exports_log` row
(`export_scope or 'all'`). -/
def export_data (db : DB) (now : Nat) (export_type export_scope : Option String) :
    ExportResult × DB :=
  if !pyTruthy export_type then (.err 400, db)
  else
    let t := export_type.getD ""
    let sel : Option (List PageRow) :=
      if t = "page" then
        if !pyTruthy export_scope then none
        else some (db.pages.filter (fun r => decide (r.file_path = export_scope.getD "")))
      else if t = "folder" then
        if !pyTruthy export_scope then none
        else some (db.pages.filter (fun r => decide (r.folder_name = export_scope.getD "")))
      else if t = "project" then some db.pages
      else none
    match sel with
    | none => (.err 400, db)
    | some pages =>
      if pages = [] then (.err 404, db)
      else
        let entries := zipEntries pages
        let scope := if pyTruthy export_scope then export_scope.getD "" else "all"
        (.ok entries,
         { db with elog := db.elog ++ [⟨t, scope, pages.length, now⟩] })

/-! ## Spec-side candidate order for the image search

The specification sentence lists the image candidates pattern-major:
all extensions of `{base}_original` first, then of `{base}`, then of
`{base}_annotated`, the first existing match winning. -/

/-- Modelled from the spec: the pattern-major candidate order
`{base}_original.{png|jpg|jpeg}`, `{base}.{png|jpg|jpeg}`,
`{base}_annotated.{png|jpg|jpeg}`, each joined to the directory. -/
def specImageCandidates (root base : String) : List String :=
  (["_original", "", "_annotated"]).flatMap
    (fun pat => image_extensions.map (fun ext => pyJoin root (base ++ pat ++ ext)))

/-- Modelled from the spec: first existing candidate in the
pattern-major order wins. -/
def findImageSpecOrder (ex : String → Bool) (root base : String) : Option String :=
  (specImageCandidates root base).find? ex

/-- The extension-major candidate order the code actually scans:
for each extension `.png`, `.jpg`, `.jpeg` in turn, the patterns
`_original`, plain, `_annotated`. -/
def codeImageCandidates (root base : String) : List String :=
  image_extensions.flatMap (fun ext => (possibleNames base ext).map (pyJoin root))

/-! ## Concrete fixtures for counterexamples and witnesses -/

/-- An empty database. -/
def dbEmpty : DB := ⟨[], [], [], 1⟩

/-- A database holding one already-validated record for `"p"`. -/
def dbValidated : DB :=
  ⟨[⟨1, "p", "f", "n", [], true, 3, 3⟩], [], [], 2⟩

/-- A one-file filesystem: `data/p.json` holds a single item with only a
`category` field (no `id`). -/
def fsOne : String → Option (List Item) :=
  fun s => if s = "data/p.json" then some [[("category", JVal.str "Text")]] else none

/-- A deterministic uuid supply. -/
def uuidFix : Nat → String := fun n => "u" ++ toString n

/-- An existence predicate over the two discriminating image files
`d/p_annotated.png` and `d/p_original.jpg`. -/
def exTwo : String → Bool :=
  fun s => s = "d/p_annotated.png" || s = "d/p_original.jpg"

/-- A two-page single-folder walk fixture: `docs/page_2.json` and
`docs/page_1.json` discovered in that order, with images
`docs/page_1_original.png` and `docs/page_2.jpg`. -/
def exDocs : String → Bool :=
  fun s => s = "data" || s = "data/docs/page_1_original.png" || s = "data/docs/page_2.jpg"

/-- The walk for the `docs` fixture (discovery order puts page 2 first). -/
def walkDocs : List (String × List String) :=
  [("data/docs", ["page_2.json", "page_1.json"])]

/-- A one-file walk fixture. -/
def walkOne : List (String × List String) :=
  [("data/docs", ["page_1.json"])]

/-- The catalog entry the scanner builds for `docs/page_1.json` under the
`exDocs` filesystem. -/
def entryP1 : Entry :=
  ⟨"page_1", "docs/page_1.json", "docs/page_1_original.png",
   "data/docs/page_1.json", "data/docs/page_1_original.png", 1, "docs"⟩

/-- The catalog entry the scanner builds for `docs/page_2.json` under the
`exDocs` filesystem. -/
def entryP2 : Entry :=
  ⟨"page_2", "docs/page_2.json", "docs/page_2.jpg",
   "data/docs/page_2.json", "data/docs/page_2.jpg", 2, "docs"⟩

/-- A concrete two-page one-folder catalog, as the scanner would produce
for the `docs` fixture. -/
def catalogDocs : List (String × List Entry) :=
  [("docs", [entryP1, entryP2])]

/-- All entries of a folder map have existing images. -/
def GoodEntries (ex : String → Bool) (d : List (String × List Entry)) : Prop :=
  ∀ kv ∈ d, ∀ e ∈ kv.2, ex e.full_image_path = true

/-- The `json_path` fields of all entries of a catalog, folder by folder
in catalog order. -/
def allPaths : List (String × List Entry) → List String
  | [] => []
  | kv :: rest => kv.2.map Entry.json_path ++ allPaths rest

/-! ## Helper lemmas -/

/-- The row freshly inserted by an `INSERT OR REPLACE` is the one a
point lookup on the same key finds: everything surviving the REPLACE
deletion has a different `file_path`. -/
lemma find?_filter_ne_append (l : List PageRow) (p : String) (row : PageRow)
    (hrow : row.file_path = p) :
    (l.filter (fun r => decide (r.file_path ≠ p)) ++ [row]).find?
      (fun r => decide (r.file_path = p)) = some row := by
  induction l with
  | nil => simp [List.find?, hrow]
  | cons r l ih =>
    by_cases h : r.file_path = p
    · simpa [h] using ih
    · simpa [List.find?, h] using ih

/-- A point lookup returning nothing means the WHERE clause selects no
rows. -/
lemma filter_nil_of_find?_none (l : List PageRow) (p : String)
    (h : l.find? (fun r => decide (r.file_path = p)) = none) :
    l.filter (fun r => decide (r.file_path = p)) = [] := by
  rw [List.filter_eq_nil_iff]
  intro r hr
  have := List.find?_eq_none.mp h r hr
  simpa using this

/-- With the UNIQUE constraint on `file_path` (no duplicate keys), the
WHERE clause selects exactly the row the point lookup finds. -/
lemma filter_eq_single_of_nodup (l : List PageRow) (p : String) (row : PageRow)
    (hnd : (l.map PageRow.file_path).Nodup)
    (hf : l.find? (fun r => decide (r.file_path = p)) = some row) :
    l.filter (fun r => decide (r.file_path = p)) = [row] := by
  induction l with
  | nil => simp [List.find?] at hf
  | cons r l ih =>
    simp only [List.map_cons, List.nodup_cons] at hnd
    by_cases h : r.file_path = p
    · rw [List.find?_cons_of_pos _ (by simpa using h)] at hf
      obtain rfl := Option.some.inj hf
      have htail : l.filter (fun r' => decide (r'.file_path = p)) = [] := by
        rw [List.filter_eq_nil_iff]
        intro x hx
        simp only [decide_eq_true_eq]
        intro hxp
        exact hnd.1 ((hxp.trans h.symm) ▸ List.mem_map_of_mem PageRow.file_path hx)
      rw [List.filter_cons_of_pos (by simpa using h), htail]
    · rw [List.find?_cons_of_neg _ (by simpa using h)] at hf
      rw [List.filter_cons_of_neg (by simpa using h)]
      exact ih hnd.2 hf

/-- Every item produced by the identifier-stripping comprehension lacks
the `id` key. -/
lemma cleanItems_no_id (items : List Item) :
    ∀ it ∈ cleanItems items, dictHasKey it "id" = false := by
  intro it hit
  obtain ⟨item, -, rfl⟩ := List.mem_map.mp hit
  rw [dictHasKey, List.any_eq_false]
  intro kv hkv
  have := (List.mem_filter.mp hkv).2
  simp only [List.mem_singleton, decide_not] at this ⊢
  intro hkeq
  simp [hkeq] at this

/-- Every `.json` data entry of the export archive is a cleaned item
list of one selected row. -/
lemma zipEntries_items_mem (pages : List PageRow) (nm : String) (l : List Item)
    (h : (nm, ZipContent.items l) ∈ zipEntries pages) :
    ∃ pg ∈ pages, l = cleanItems pg.bbox_data := by
  induction pages with
  | nil => simp [zipEntries] at h
  | cons pg rest ih =>
    simp only [zipEntries, List.mem_cons, Prod.mk.injEq] at h
    rcases h with ⟨-, hc⟩ | ⟨-, hc⟩ | h
    · exact ⟨pg, List.mem_cons_self pg rest, (ZipContent.items.inj hc.symm).symm⟩
    · exact absurd hc (by simp)
    · obtain ⟨q, hq, hl⟩ := ih h
      exact ⟨q, List.mem_cons_of_mem pg hq, hl⟩

/-- Setting a key makes the key present. -/
lemma hasKey_dictSet_self (d : Item) (k : String) (v : JVal) :
    dictHasKey (dictSet d k v) k = true := by
  rw [dictSet]
  by_cases h : dictHasKey d k = true
  · rw [if_pos h]
    rw [dictHasKey, List.any_eq_true] at h ⊢
    obtain ⟨kv, hkv, hk⟩ := h
    refine ⟨(k, v), List.mem_map.mpr ⟨kv, hkv, ?_⟩, by simp⟩
    simp only [decide_eq_true_eq] at hk
    simp [hk]
  · rw [if_neg h]
    rw [dictHasKey, List.any_eq_true]
    exact ⟨(k, v), by simp⟩

/-- Overwriting the value at key `k` does not change which other keys
occur. -/
lemma any_key_map_set (d : Item) (k k' : String) (v : JVal) (hne : k' ≠ k) :
    ((d.map (fun kv => if kv.1 = k then (k, v) else kv)).any
        fun kv => decide (kv.1 = k')) =
      d.any fun kv => decide (kv.1 = k') := by
  induction d with
  | nil => simp
  | cons kv rest ih =>
    simp only [List.map_cons, List.any_cons, ih]
    by_cases hk : kv.1 = k
    · have h1 : ¬((k, v).1 = k') := by simpa using (Ne.symm hne)
      have h2 : ¬(kv.1 = k') := by rw [hk]; exact Ne.symm hne
      simp [if_pos hk, h1, h2]
    · simp [if_neg hk]

/-- Setting one key does not change the presence of another. -/
lemma hasKey_dictSet_other (d : Item) (k k' : String) (v : JVal) (hne : k' ≠ k) :
    dictHasKey (dictSet d k v) k' = dictHasKey d k' := by
  rw [dictSet]
  by_cases h : dictHasKey d k = true
  · rw [if_pos h, dictHasKey, dictHasKey]
    exact any_key_map_set d k k' v hne
  · rw [if_neg h]
    rw [dictHasKey, dictHasKey, List.any_append]
    simp [Ne.symm hne]

/-- After annotation every item carries an `id` key. -/
lemma annotate_item_has_id (uuid : Nat → String) (items : List Item) :
    ∀ i ctr, ∀ it ∈ (annotateItems uuid items i ctr).1, dictHasKey it "id" = true := by
  induction items with
  | nil => intro i ctr it hit; simp [annotateItems] at hit
  | cons item rest ih =>
    intro i ctr it hit
    rw [annotateItems] at hit
    simp only [List.mem_cons] at hit
    rcases hit with rfl | hit
    · by_cases hid : dictHasKey item "id" = true
      · by_cases hro : dictHasKey item "reading_order" = true
        · simp [hid, hro]
        · simp only [hid, if_true, hro]
          rw [if_neg (by simp [hro]), hasKey_dictSet_other _ _ _ _ (by decide)]
          exact hid
      · simp only [if_neg hid]
        by_cases hro : dictHasKey (dictSet item "id" (JVal.str (uuid ctr))) "reading_order" = true
        · simpa [hro] using hasKey_dictSet_self item "id" (JVal.str (uuid ctr))
        · rw [if_neg (by simp [hro]), hasKey_dictSet_other _ _ _ _ (by decide)]
          exact hasKey_dictSet_self item "id" (JVal.str (uuid ctr))
    · exact ih _ _ it hit

/-! ## Claim C10 -/

/-- Claim C10: a save-page request whose `data` field is the empty item
list is rejected with a 400 InputError and no record is written (the
store and the filesystem are untouched), even when both required fields
are present. -/
theorem save_empty_items_rejected (db : DB) (now : Nat) (data_dir p : String)
    (stf : Bool) :
    save_file db now data_dir (some p) (some []) stf = (.err 400, db, none) := by
  simp [save_file]

/-! ## Claim C9 -/

/-- Claim C9: neither the filesystem mirror written by a save with
`save_to_filesystem` nor any per-page JSON entry of an export archive
ever contains an `id` key, even when the in-memory items carried one. -/
theorem written_json_never_contains_id :
    (∀ db now data_dir p items stf fp content,
       (save_file db now data_dir (some p) (some items) stf).2.2 = some (fp, content) →
       ∀ it ∈ content, dictHasKey it "id" = false) ∧
    (∀ db now t s entries, (export_data db now t s).1 = .ok entries →
       ∀ nm l, (nm, ZipContent.items l) ∈ entries →
       ∀ it ∈ l, dictHasKey it "id" = false) := by
  constructor
  · intro db now dd p items stf fp content h it hit
    rw [save_file] at h
    by_cases hcond : p = "" ∨ items = []
    · rw [if_pos hcond] at h
      simp at h
    · rw [if_neg hcond] at h
      by_cases hstf : stf
      · simp only [hstf, if_true, Option.some.injEq, Prod.mk.injEq] at h
        exact cleanItems_no_id items it (by rw [h.2]; exact hit)
      · simp [hstf] at h
  · intro db now t s entries h nm l hmem it hit
    simp only [export_data] at h
    split at h
    · simp at h
    · split at h
      · simp at h
      · split at h
        · simp at h
        · simp only [Prod.fst, ExportResult.ok.injEq] at h
          obtain ⟨pg, -, rfl⟩ := zipEntries_items_mem _ nm l (h ▸ hmem)
          exact cleanItems_no_id _ it hit

/-! ## Claim C1 -/

/-- Claim C1 counterexample: a record for `"p"` exists with `validated =
true`; the upsert `save_page_to_db` nevertheless leaves the record with
`validated = false`, because `INSERT OR REPLACE` replaces the whole row
and the unlisted `is_validated` column takes its FALSE default. -/
theorem upsert_resets_validated_counterexample :
    (get_page_from_db dbValidated "p").map PageRow.is_validated = some true ∧
    (get_page_from_db (save_page_to_db dbValidated 9 "p" "f" "n" []) "p").map
      PageRow.is_validated = some false :=
  ⟨rfl, rfl⟩

/-- Claim C1 (amended): an upsert fully replaces the record: after any
`save_page_to_db` call the record stored under the path is the freshly
inserted row, whose `validated` flag is false — on insert and on update
of an existing path alike (`created_at` is likewise reset). -/
theorem upsert_always_resets_validated (db : DB) (now : Nat) (p f n : String)
    (bb : List Item) :
    get_page_from_db (save_page_to_db db now p f n bb) p =
      some ⟨db.nextId, p, f, n, bb, false, now, now⟩ := by
  rw [get_page_from_db, save_page_to_db]
  exact find?_filter_ne_append db.pages p _ rfl

/-! ## Claim C7 -/

/-- Claim C7: `set_validated` on a path with no record fails with a 404
not-found condition and returns the store unchanged — no record is
created and no audit entry is appended. -/
theorem set_validated_unknown_path_404 (db : DB) (now : Nat) (p : String)
    (flag : Bool) (hp : p ≠ "") (h : get_page_from_db db p = none) :
    validate_page db now (some p) flag = (.err 404, db) := by
  have hfil := filter_nil_of_find?_none db.pages p h
  simp [validate_page, hp, hfil]

/-- Witness for C7 at a concrete input. -/
theorem set_validated_unknown_path_404_witness :
    validate_page dbEmpty 3 (some "q") true = (.err 404, dbEmpty) :=
  set_validated_unknown_path_404 dbEmpty 3 "q" true (by decide) (by rfl)

/-! ## Claim C8 -/

/-- Claim C8 counterexample: the record for `"p"` is already validated,
so setting the flag to a value it already has should append no audit
entry; the code nevertheless appends one, because it logs whenever the
new flag is true rather than only on a false-to-true transition. -/
theorem validate_logs_without_transition_counterexample :
    (get_page_from_db dbValidated "p").map PageRow.is_validated = some true ∧
    dbValidated.vlog = [] ∧
    ((validate_page dbValidated 9 (some "p") true).2).vlog = [⟨1, 9⟩] :=
  ⟨rfl, rfl, rfl⟩

/-- Claim C8 (amended): for an existing record, `set_validated` appends
one timestamped audit entry exactly when the new flag value is true —
regardless of the previous value — and none when setting it to false. -/
theorem validate_appends_log_iff_flag_true (db : DB) (now : Nat) (p : String)
    (flag : Bool) (row : PageRow) (hp : p ≠ "")
    (hnd : (db.pages.map PageRow.file_path).Nodup)
    (hrow : get_page_from_db db p = some row) :
    ∃ db', validate_page db now (some p) flag = (.ok flag, db') ∧
      db'.vlog = db.vlog ++ (if flag then [⟨row.id, now⟩] else []) := by
  have hfil : db.pages.filter (fun r => decide (r.file_path = p)) = [row] :=
    filter_eq_single_of_nodup db.pages p row hnd hrow
  refine ⟨{ db with
      pages := db.pages.map
        (fun r => if r.file_path = p then { r with is_validated := flag } else r),
      vlog := db.vlog ++
        (if flag then
          ((db.pages.map
              (fun r => if r.file_path = p then { r with is_validated := flag } else r)).filter
            (fun r => decide (r.file_path = p))).map
            (fun r => ({ page_id := r.id, validated_at := now } : VLogRow))
        else []) }, ?_, ?_⟩
  · simp only [validate_page, if_neg hp, hfil]
    simp
  · by_cases hf : flag
    · subst hf
      simp only [if_pos rfl]
      congr 1
      rw [List.filter_map]
      have hcong : db.pages.filter
            ((fun r => decide (r.file_path = p)) ∘
              fun r => if r.file_path = p then { r with is_validated := true } else r) =
          db.pages.filter (fun r => decide (r.file_path = p)) := by
        apply List.filter_congr
        intro r _
        by_cases h : r.file_path = p <;> simp [h]
      rw [hcong, hfil]
      by_cases h : row.file_path = p <;> simp [h]
    · simp [hf]

/-- Witness for C8 (amended) at a concrete input. -/
theorem validate_appends_log_iff_flag_true_witness :
    ∃ db', validate_page dbValidated 9 (some "p") true = (.ok true, db') ∧
      db'.vlog = dbValidated.vlog ++ [⟨1, 9⟩] := by
  have h := validate_appends_log_iff_flag_true dbValidated 9 "p" true
      ⟨1, "p", "f", "n", [], true, 3, 3⟩ (by decide) (by decide) (by rfl)
  simpa using h

/-- Witness for C9 at a concrete input. -/
theorem written_json_never_contains_id_witness :
    ∀ it ∈ [[("category", JVal.str "Text")]], dictHasKey it "id" = false :=
  written_json_never_contains_id.1 dbEmpty 4 "data" "a/b.json"
    [[("id", JVal.str "x"), ("category", JVal.str "Text")]] true
    "data/a/b.json" [[("category", JVal.str "Text")]] (by decide)

/-! ## Claims C2 and C3 -/

/-- Point lookup right after an upsert finds exactly the fresh row. -/
lemma get_page_after_save (db : DB) (now : Nat) (p f n : String) (bb : List Item) :
    get_page_from_db (save_page_to_db db now p f n bb) p =
      some ⟨db.nextId, p, f, n, bb, false, now, now⟩ := by
  rw [get_page_from_db, save_page_to_db]
  exact find?_filter_ne_append db.pages p _ rfl

/-- Claim C2 counterexample: on the concrete one-file fixture the first
resolve reports `source = "filesystem"` as the claim says, but the
subsequent resolve of the same path reports the literal source string
`"database"`, not `"store"`. -/
theorem resolve_source_string_counterexample :
    (load_file dbEmpty "data" fsOne uuidFix 0 5 (some "p.json")).1 =
      .ok [[("category", JVal.str "Text"), ("id", JVal.str "u0"),
            ("reading_order", JVal.num 0)]] false none "filesystem" ∧
    (load_file (load_file dbEmpty "data" fsOne uuidFix 0 5 (some "p.json")).2.1
        "data" fsOne uuidFix 1 6 (some "p.json")).1 =
      .ok [[("category", JVal.str "Text"), ("id", JVal.str "u0"),
            ("reading_order", JVal.num 0)]] false (some 5) "database" ∧
    "database" ≠ "store" :=
  ⟨rfl, rfl, by decide⟩

/-- Claim C2 (amended): for a page path with no record, the first
resolve reads the JSON file, seeds the store with the annotated items
(`validated` false), and reports source `"filesystem"`; every subsequent
resolve of the path takes the store branch, leaves the store unchanged,
and reports the source string `"database"` (the code's literal for the
store branch). -/
theorem resolve_two_tier (db : DB) (data_dir : String)
    (fs : String → Option (List Item)) (uuid : Nat → String) (ctr now : Nat)
    (p : String) (items : List Item)
    (hp : p ≠ "") (hdb : get_page_from_db db p = none)
    (hfs : fs (pyJoin data_dir p) = some items) :
    ∃ db' ctr',
      load_file db data_dir fs uuid ctr now (some p) =
        (.ok (annotateItems uuid items 0 ctr).1 false none "filesystem", db', ctr') ∧
      (∃ row, get_page_from_db db' p = some row ∧
        row.bbox_data = (annotateItems uuid items 0 ctr).1 ∧
        row.is_validated = false) ∧
      ∀ uuid2 ctr2 now2, ∃ ann2 ctr2',
        load_file db' data_dir fs uuid2 ctr2 now2 (some p) =
          (.ok ann2 false (some now) "database", db', ctr2') := by
  refine ⟨save_page_to_db db now p (folderNameOf p) (pageNameOf p)
      (annotateItems uuid items 0 ctr).1, (annotateItems uuid items 0 ctr).2,
      ?_, ?_, ?_⟩
  · simp only [load_file, hp, hdb, hfs]
    simp
  · exact ⟨_, get_page_after_save db now p _ _ _, rfl, rfl⟩
  · intro uuid2 ctr2 now2
    refine ⟨(annotateItems uuid2 (annotateItems uuid items 0 ctr).1 0 ctr2).1,
            (annotateItems uuid2 (annotateItems uuid items 0 ctr).1 0 ctr2).2, ?_⟩
    simp only [load_file, hp, get_page_after_save db now p _ _ _]
    simp

/-- Witness for C2 (amended) at the concrete one-file fixture. -/
theorem resolve_two_tier_witness :
    ∃ db' ctr',
      load_file dbEmpty "data" fsOne uuidFix 0 5 (some "p.json") =
        (.ok (annotateItems uuidFix [[("category", JVal.str "Text")]] 0 0).1
          false none "filesystem", db', ctr') ∧
      (∃ row, get_page_from_db db' "p.json" = some row ∧
        row.bbox_data = (annotateItems uuidFix [[("category", JVal.str "Text")]] 0 0).1 ∧
        row.is_validated = false) ∧
      ∀ uuid2 ctr2 now2, ∃ ann2 ctr2',
        load_file db' "data" fsOne uuid2 ctr2 now2 (some "p.json") =
          (.ok ann2 false (some 5) "database", db', ctr2') :=
  resolve_two_tier dbEmpty "data" fsOne uuidFix 0 5 "p.json"
    [[("category", JVal.str "Text")]] (by decide) (by decide) (by decide)

/-- Claim C3 counterexample: the file holds one item with no `id`; a
single resolve (no save was ever issued) already leaves the store's
record with an item carrying an `id` key — the identifiers generated on
the filesystem-fallback resolve are persisted immediately. -/
theorem generated_ids_persisted_counterexample :
    fsOne "data/p.json" = some [[("category", JVal.str "Text")]] ∧
    dictHasKey [("category", JVal.str "Text")] "id" = false ∧
    ((load_file dbEmpty "data" fsOne uuidFix 0 5 (some "p.json")).2.1.pages.map
      (fun r => r.bbox_data.map (fun it => dictHasKey it "id"))) = [[true]] :=
  ⟨rfl, rfl, rfl⟩

/-- Claim C3 (amended): identifiers generated on a store-branch resolve
are presentation-only and are not persisted (the store is returned
unchanged); but on the filesystem-fallback resolve the freshly generated
identifiers are persisted to the store at once, as part of seeding: the
stored items are exactly the annotated items and every one carries an
`id` key, before any explicit save. -/
theorem resolver_id_persistence :
    (∀ db data_dir fs uuid ctr now p row, p ≠ "" →
       get_page_from_db db p = some row →
       (load_file db data_dir fs uuid ctr now (some p)).2.1 = db) ∧
    (∀ db data_dir fs uuid ctr now p items, p ≠ "" →
       get_page_from_db db p = none →
       fs (pyJoin data_dir p) = some items →
       ∃ row, get_page_from_db
           (load_file db data_dir fs uuid ctr now (some p)).2.1 p = some row ∧
         row.bbox_data = (annotateItems uuid items 0 ctr).1 ∧
         ∀ it ∈ row.bbox_data, dictHasKey it "id" = true) := by
  constructor
  · intro db data_dir fs uuid ctr now p row hp hrow
    simp [load_file, hp, hrow]
  · intro db data_dir fs uuid ctr now p items hp hdb hfs
    simp only [load_file, hp, hdb, hfs]
    refine ⟨_, get_page_after_save db now p _ _ _, rfl, ?_⟩
    exact annotate_item_has_id uuid items 0 ctr

/-- Witness for C3 (amended) at the concrete one-file fixture. -/
theorem resolver_id_persistence_witness :
    ∃ row, get_page_from_db
        (load_file dbEmpty "data" fsOne uuidFix 0 5 (some "p.json")).2.1
        "p.json" = some row ∧
      row.bbox_data = (annotateItems uuidFix [[("category", JVal.str "Text")]] 0 0).1 ∧
      ∀ it ∈ row.bbox_data, dictHasKey it "id" = true :=
  resolver_id_persistence.2 dbEmpty "data" fsOne uuidFix 0 5 "p.json"
    [[("category", JVal.str "Text")]] (by decide) (by decide) (by decide)

/-! ## Claim C5 -/

/-- The inner pattern loop is a first-match search over the joined
candidate names of one extension. -/
lemma firstExisting_eq_find? (ex : String → Bool) (root : String) (names : List String) :
    firstExisting ex root names = (names.map (pyJoin root)).find? ex := by
  induction names with
  | nil => rfl
  | cons n rest ih =>
    rw [firstExisting, List.map_cons, List.find?_cons]
    by_cases h : ex (pyJoin root n)
    · simp [h]
    · simp only [h, if_neg]
      simp only [Bool.not_eq_true] at h
      simp [h, ih]

/-- The nested extension/pattern loops are a first-match search over the
extension-major candidate list. -/
lemma findImageAux_eq_find? (ex : String → Bool) (root base : String)
    (exts : List String) :
    findImageAux ex root base exts =
      (exts.flatMap (fun ext => (possibleNames base ext).map (pyJoin root))).find? ex := by
  induction exts with
  | nil => rfl
  | cons ext rest ih =>
    rw [findImageAux, List.flatMap_cons, List.find?_append, firstExisting_eq_find?]
    cases h : (((possibleNames base ext).map (pyJoin root)).find? ex) with
    | none => simp [Option.or, ih]
    | some v => simp [Option.or]

/-- A found image exists. -/
lemma findImage_ex (ex : String → Bool) (root base ip : String)
    (h : findImage ex root base = some ip) : ex ip = true := by
  rw [findImage, findImageAux_eq_find?] at h
  exact List.find?_some h

lemma goodEntries_dictAppend (ex : String → Bool) (d : List (String × List Entry))
    (k : String) (e : Entry) (hd : GoodEntries ex d)
    (he : ex e.full_image_path = true) : GoodEntries ex (dictAppend d k e) := by
  intro kv hkv x hx
  rw [dictAppend] at hkv
  split at hkv
  · obtain ⟨kv', hkv', rfl⟩ := List.mem_map.mp hkv
    by_cases hk : kv'.1 = k
    · simp only [if_pos hk] at hx
      rcases List.mem_append.mp hx with hx | hx
      · exact hd kv' hkv' x hx
      · rw [List.mem_singleton.mp hx]; exact he
    · simp only [if_neg hk] at hx
      exact hd kv' hkv' x hx
  · rcases List.mem_append.mp hkv with hkv | hkv
    · exact hd kv hkv x hx
    · rw [List.mem_singleton.mp hkv] at hx
      simp only [List.mem_singleton] at hx
      rw [hx]; exact he

lemma goodEntries_processFile (ex : String → Bool) (dd root fn : String)
    (acc : List (String × List Entry)) (filename : String)
    (hacc : GoodEntries ex acc) :
    GoodEntries ex (processFile ex dd root fn acc filename) := by
  rw [processFile]
  split
  · cases h : findImage ex root (pyReplace filename ".json" "") with
    | none => simpa [h] using hacc
    | some ip =>
      simp only [h]
      exact goodEntries_dictAppend ex acc fn _ hacc (findImage_ex ex root _ ip h)
  · exact hacc

lemma goodEntries_foldl_processFile (ex : String → Bool) (dd root fn : String)
    (files : List String) (acc : List (String × List Entry))
    (hacc : GoodEntries ex acc) :
    GoodEntries ex (files.foldl (processFile ex dd root fn) acc) := by
  induction files generalizing acc with
  | nil => exact hacc
  | cons f rest ih =>
    exact ih _ (goodEntries_processFile ex dd root fn acc f hacc)

lemma goodEntries_collectFiles (ex : String → Bool) (dd : String)
    (walk : List (String × List String)) :
    GoodEntries ex (collectFiles ex dd walk) := by
  rw [collectFiles]
  split
  · have main : ∀ (w : List (String × List String)) (acc : List (String × List Entry)),
        GoodEntries ex acc →
        GoodEntries ex (w.foldl (fun acc rf =>
          rf.2.foldl (processFile ex dd rf.1
            (if pyBasename rf.1 = pyBasename dd then "Root" else pyBasename rf.1)) acc) acc) := by
      intro w
      induction w with
      | nil => intro acc hacc; exact hacc
      | cons rf rest ih =>
        intro acc hacc
        exact ih _ (goodEntries_foldl_processFile ex dd rf.1 _ rf.2 acc hacc)
    exact main walk [] (by intro kv hkv; simp at hkv)
  · intro kv hkv; simp at hkv

/-- Claim C5 counterexample: with exactly `d/p_annotated.png` and
`d/p_original.jpg` present, the spec's pattern-major priority picks the
`_original` candidate, but the code scans extension-major and picks the
`_annotated` `.png` candidate first. -/
theorem image_priority_counterexample :
    findImage exTwo "d" "p" = some "d/p_annotated.png" ∧
    findImageSpecOrder exTwo "d" "p" = some "d/p_original.jpg" ∧
    some "d/p_annotated.png" ≠ some "d/p_original.jpg" :=
  ⟨rfl, rfl, by decide⟩

/-- Claim C5 (amended): the image search is extension-major — for each
extension `.png`, `.jpg`, `.jpeg` in order it tries `{base}_original`,
`{base}`, `{base}_annotated`, and the first existing candidate in that
flattened order wins; moreover every catalog entry's chosen image
exists, so a JSON file with no matching image is excluded from the
catalog. -/
theorem image_priority_extension_major :
    (∀ ex root base, findImage ex root base =
      (codeImageCandidates root base).find? ex) ∧
    (∀ ex dd walk, ∀ kv ∈ get_available_files ex dd walk,
      ∀ e ∈ kv.2, ex e.full_image_path = true) := by
  constructor
  · intro ex root base
    rw [findImage, findImageAux_eq_find?, codeImageCandidates]
  · intro ex dd walk kv hkv e he
    rw [get_available_files] at hkv
    rw [List.mem_mergeSort] at hkv
    obtain ⟨kv', hkv', rfl⟩ := List.mem_map.mp hkv
    simp only at he
    rw [List.mem_mergeSort] at he
    exact goodEntries_collectFiles ex dd walk kv' hkv' e he

/-! ## Claim C6 -/

/-- A stable sort leaves the relative order of any class of mutually
`le`-equivalent elements unchanged: filtering such a class out of the
sorted list gives the same list as filtering it out of the input. -/
lemma mergeSort_filter_stable {α} (le : α → α → Bool) (p : α → Bool)
    (trans : ∀ (a b c : α), le a b → le b c → le a c)
    (total : ∀ (a b : α), le a b || le b a)
    (l : List α) (hp : (l.filter p).Pairwise (le · ·)) :
    (l.mergeSort le).filter p = l.filter p := by
  have hsub : List.Sublist (l.filter p) (l.mergeSort le) :=
    List.sublist_mergeSort trans total hp (List.filter_sublist l)
  have hself : (l.filter p).filter p = l.filter p := by
    apply List.filter_eq_self.mpr
    intro a ha
    exact List.of_mem_filter ha
  have h3 : List.Sublist (l.filter p) ((l.mergeSort le).filter p) := by
    have := hsub.filter p
    rwa [hself] at this
  have hperm : List.Perm ((l.mergeSort le).filter p) (l.filter p) :=
    (List.mergeSort_perm l le).filter p
  exact (h3.eq_of_length hperm.length_eq.symm).symm

lemma lePage_trans (a b c : Entry) : lePage a b → lePage b c → lePage a c := by
  simp only [lePage, decide_eq_true_eq]
  exact Nat.le_trans

lemma lePage_total (a b : Entry) : lePage a b || lePage b a := by
  simp only [lePage]
  rcases Nat.le_total a.page_num b.page_num with h | h <;> simp [h]

lemma leKey_trans (a b c : String × List Entry) : leKey a b → leKey b c → leKey a c := by
  simp only [leKey, decide_eq_true_eq]
  exact le_trans

lemma leKey_total (a b : String × List Entry) : leKey a b || leKey b a := by
  simp only [leKey]
  rcases le_total a.1 b.1 with h | h <;> simp [h]

/-- Claim C6: in every scanned catalog, each folder's entry list is
sorted ascending by parsed page number, entries with equal page numbers
keep their discovery order (the order collected before sorting), and the
folder keys come out sorted lexicographically; the scan is a pure
function of the walk, so repeated scans of an unchanged tree agree. -/
theorem catalog_sorted_and_deterministic (ex : String → Bool) (dd : String)
    (walk : List (String × List String)) :
    (∀ kv ∈ get_available_files ex dd walk,
      kv.2.Pairwise (fun a b => a.page_num ≤ b.page_num)) ∧
    (∀ kv ∈ get_available_files ex dd walk,
      ∃ ds, (kv.1, ds) ∈ collectFiles ex dd walk ∧
        ∀ n, kv.2.filter (fun e => e.page_num == n) =
          ds.filter (fun e => e.page_num == n)) ∧
    ((get_available_files ex dd walk).map Prod.fst).Pairwise (· ≤ ·) := by
  refine ⟨?_, ?_, ?_⟩
  · intro kv hkv
    rw [get_available_files, List.mem_mergeSort] at hkv
    obtain ⟨kv', -, rfl⟩ := List.mem_map.mp hkv
    have hs := List.sorted_mergeSort lePage_trans lePage_total kv'.2
    exact hs.imp (fun h => by simpa [lePage] using h)
  · intro kv hkv
    rw [get_available_files, List.mem_mergeSort] at hkv
    obtain ⟨kv', hkv', rfl⟩ := List.mem_map.mp hkv
    refine ⟨kv'.2, hkv', ?_⟩
    intro n
    apply mergeSort_filter_stable lePage _ lePage_trans lePage_total
    apply List.pairwise_of_forall_mem_list
    intro a ha b hb
    have hae : a.page_num = n := by simpa using List.of_mem_filter ha
    have hbe : b.page_num = n := by simpa using List.of_mem_filter hb
    simp [lePage, hae, hbe]
  · rw [get_available_files]
    have hs := List.sorted_mergeSort leKey_trans leKey_total
      ((collectFiles ex dd walk).map (fun kv => (kv.1, kv.2.mergeSort lePage)))
    exact hs.map Prod.fst (fun a b h => by simpa [leKey] using h)

/-- The scanner's output on the one-file fixture, evaluated once for the
witnesses (the singleton sorts reduce by `mergeSort_singleton`). -/
lemma get_available_files_walkOne :
    get_available_files exDocs "data" walkOne = [("docs", [entryP1])] := by
  have h1 : collectFiles exDocs "data" walkOne = [("docs", [entryP1])] := by decide
  rw [get_available_files, h1]
  simp

/-- Witness for C5 (amended) at the one-file fixture: the catalog entry's
chosen image exists. -/
theorem image_priority_extension_major_witness :
    exDocs entryP1.full_image_path = true :=
  image_priority_extension_major.2 exDocs "data" walkOne ("docs", [entryP1])
    (by rw [get_available_files_walkOne]; exact List.mem_singleton.mpr rfl)
    entryP1 (List.mem_singleton.mpr rfl)

/-- Witness for C6 at the one-file fixture: the sorted folder keeps its
discovery-order entries for every page number class. -/
theorem catalog_sorted_and_deterministic_witness :
    ∃ ds, ("docs", ds) ∈ collectFiles exDocs "data" walkOne ∧
      ∀ n, [entryP1].filter (fun e => e.page_num == n) =
        ds.filter (fun e => e.page_num == n) :=
  (catalog_sorted_and_deterministic exDocs "data" walkOne).2.1
    ("docs", [entryP1])
    (by rw [get_available_files_walkOne]; exact List.mem_singleton.mpr rfl)

/-! ## Claim C4 -/

/-- A path occurring in no entry of a folder is not found by the inner
search. -/
lemma findInFiles_not_mem (fs : List Entry) (p : String)
    (h : p ∉ fs.map Entry.json_path) : ∀ s, findInFiles fs p s = none := by
  induction fs with
  | nil => intro s; rfl
  | cons f rest ih =>
    intro s
    simp only [List.map_cons, List.mem_cons, not_or] at h
    rw [findInFiles, if_neg (fun he => h.1 he.symm)]
    exact ih h.2 (s + 1)

/-- With no duplicate paths inside a folder, the inner search finds an
entry exactly at its index. -/
lemma findInFiles_at (fs : List Entry) (j : Nat) (e : Entry)
    (hnd : (fs.map Entry.json_path).Nodup) (hj : fs[j]? = some e) :
    ∀ s, findInFiles fs e.json_path s = some (s + j) := by
  induction fs generalizing j with
  | nil => simp at hj
  | cons f rest ih =>
    intro s
    simp only [List.map_cons, List.nodup_cons] at hnd
    cases j with
    | zero =>
      simp only [List.getElem?_cons_zero, Option.some.injEq] at hj
      rw [findInFiles, if_pos (by rw [hj])]
      simp
    | succ j =>
      simp only [List.getElem?_cons_succ] at hj
      have hne : f.json_path ≠ e.json_path := by
        intro hfe
        exact hnd.1 (hfe ▸ List.mem_map_of_mem Entry.json_path (List.getElem?_mem hj))
      rw [findInFiles, if_neg hne]
      have := ih j hnd.2 hj (s + 1)
      rw [this]
      congr 1
      omega

/-- Membership in the flattened path list. -/
lemma mem_allPaths (c : List (String × List Entry)) (p : String) :
    p ∈ allPaths c ↔ ∃ kv ∈ c, p ∈ kv.2.map Entry.json_path := by
  induction c with
  | nil => simp [allPaths]
  | cons kv rest ih => simp [allPaths, List.mem_append, ih]

/-- A path absent from the whole catalog leaves the folder scan at its
accumulator. -/
lemma findCurrent_of_not_mem (c : List (String × List Entry)) (p : String)
    (h : p ∉ allPaths c) : ∀ acc, findCurrent c p acc = acc := by
  induction c with
  | nil => intro acc; rfl
  | cons kv rest ih =>
    intro acc
    obtain ⟨k, v⟩ := kv
    simp only [allPaths, List.mem_append, not_or] at h
    rw [findCurrent, findInFiles_not_mem v p h.1 0]
    exact ih h.2 acc

/-- The folder's own path list is duplicate-free whenever the whole
catalog's is. -/
lemma nodup_paths_of_mem (c : List (String × List Entry)) (fn : String)
    (fs : List Entry) (hpaths : (allPaths c).Nodup) (hmem : (fn, fs) ∈ c) :
    (fs.map Entry.json_path).Nodup := by
  induction c with
  | nil => simp at hmem
  | cons kv rest ih =>
    rw [allPaths] at hpaths
    rcases List.mem_cons.mp hmem with rfl | hmem
    · exact hpaths.of_append_left
    · exact ih hpaths.of_append_right hmem

/-- With globally distinct paths, the folder loop locates an entry at its
folder and index, whatever the accumulator (the `""`-named-folder detour
cannot be overturned because the path occurs nowhere else). -/
lemma findCurrent_locate (c : List (String × List Entry)) (fn : String)
    (fs : List Entry) (p : String) (j : Nat)
    (hpaths : (allPaths c).Nodup) (hmem : (fn, fs) ∈ c)
    (hp : p ∈ fs.map Entry.json_path)
    (hfind : findInFiles fs p 0 = some j) :
    ∀ acc, findCurrent c p acc = some (fn, j) := by
  induction c with
  | nil => simp at hmem
  | cons kv rest ih =>
    intro acc
    obtain ⟨k, v⟩ := kv
    rw [allPaths] at hpaths
    have hdisj := List.disjoint_of_nodup_append hpaths
    rcases List.mem_cons.mp hmem with heq | hmem'
    · obtain ⟨rfl, rfl⟩ := Prod.mk.injEq .. ▸ heq
      simp only [findCurrent, hfind]
      by_cases hk : fn = ""
      · rw [if_pos hk, findCurrent_of_not_mem rest p (fun hrest => hdisj hp hrest)]
      · rw [if_neg hk]
    · have hprest : p ∈ allPaths rest :=
        (mem_allPaths rest p).mpr ⟨(fn, fs), hmem', hp⟩
      have hpnot : p ∉ v.map Entry.json_path := fun hv => hdisj hv hprest
      rw [findCurrent, findInFiles_not_mem v p hpnot 0]
      exact ih hpaths.of_append_right hmem' acc

/-- With duplicate-free folder names, the dict lookup returns the member
folder's list. -/
lemma pyDictGet_of_mem (c : List (String × List Entry)) (fn : String)
    (fs : List Entry) (hkeys : (c.map Prod.fst).Nodup)
    (hmem : (fn, fs) ∈ c) : pyDictGet c fn = some fs := by
  induction c with
  | nil => simp at hmem
  | cons kv rest ih =>
    obtain ⟨k, v⟩ := kv
    simp only [List.map_cons, List.nodup_cons] at hkeys
    rcases List.mem_cons.mp hmem with heq | hmem'
    · obtain ⟨rfl, rfl⟩ := Prod.mk.injEq .. ▸ heq
      rw [pyDictGet, if_pos rfl]
    · have hne : k ≠ fn := by
        intro he
        apply hkeys.1
        rw [he]
        simpa using List.mem_map_of_mem Prod.fst hmem'
      rw [pyDictGet, if_neg hne]
      exact ih hkeys.2 hmem'

/-- Python's `(j + 1) % n` on ints agrees with the `Nat` computation. -/
lemma emod_next_eq (j n : Nat) :
    ((j : Int) + 1) % (n : Int) = (((j + 1) % n : Nat) : Int) := by
  have h1 : ((j : Int) + 1) = ((j + 1 : Nat) : Int) := by push_cast; ring
  rw [h1, Int.ofNat_mod_ofNat]

/-- Python's `(j - 1) % n` on ints (floor/Euclidean agreement for a
positive divisor) equals the `Nat` computation `(j + n - 1) % n`. -/
lemma emod_prev_eq (j n : Nat) (hn : 0 < n) :
    ((j : Int) - 1) % (n : Int) = (((j + n - 1) % n : Nat) : Int) := by
  have h1 : ((j : Int) - 1) % (n : Int) = ((j : Int) - 1 + (n : Int) * 1) % (n : Int) :=
    (Int.add_mul_emod_self_left _ _ _).symm
  have h2 : ((j : Int) - 1 + (n : Int) * 1) = ((j + n - 1 : Nat) : Int) := by
    rw [Nat.cast_sub (by omega)]
    push_cast
    ring
  rw [h1, h2, Int.ofNat_mod_ofNat]

/-- next-then-prev lands back on the original index. -/
lemma mod_round_trip (j n : Nat) (hj : j < n) :
    ((j + 1) % n + n - 1) % n = j := by
  rcases Nat.lt_or_ge (j + 1) n with h | h
  · rw [Nat.mod_eq_of_lt h]
    have h2 : j + 1 + n - 1 = j + n := by omega
    rw [h2, Nat.add_mod_right, Nat.mod_eq_of_lt hj]
  · have hjn : j + 1 = n := by omega
    rw [hjn, Nat.mod_self]
    have h3 : 0 + n - 1 = j := by omega
    rw [h3, Nat.mod_eq_of_lt hj]

/-- The navigate route, fully evaluated at an entry located at index `j`
of its folder, for an arbitrary non-empty direction string: the new index
is `(j + 1) % n` for `"next"` and `(j + n - 1) % n` otherwise. -/
lemma navigate_eq (catalog : List (String × List Entry)) (fn : String)
    (fs : List Entry) (j : Nat) (e : Entry) (d : String)
    (hkeys : (catalog.map Prod.fst).Nodup)
    (hpaths : (allPaths catalog).Nodup)
    (hmem : (fn, fs) ∈ catalog)
    (hj : fs[j]? = some e)
    (hne : e.json_path ≠ "") (hd : d ≠ "") :
    ∃ f, fs[(if d = "next" then (j + 1) % fs.length
             else (j + fs.length - 1) % fs.length)]? = some f ∧
      navigate catalog e.json_path d =
        .ok ⟨f.json_path, f.image_path, f.name, f.page_num,
             (if d = "next" then (j + 1) % fs.length
              else (j + fs.length - 1) % fs.length) + 1, fs.length, fn⟩ := by
  have hlt : j < fs.length := (List.getElem?_eq_some_iff.mp hj).1
  have hn : 0 < fs.length := Nat.lt_of_le_of_lt (Nat.zero_le j) hlt
  have hnodup_fs : (fs.map Entry.json_path).Nodup :=
    nodup_paths_of_mem catalog fn fs hpaths hmem
  have hfind : findInFiles fs e.json_path 0 = some j := by
    have h := findInFiles_at fs j e hnodup_fs hj 0
    simpa using h
  have hcur : findCurrent catalog e.json_path none = some (fn, j) :=
    findCurrent_locate catalog fn fs e.json_path j hpaths hmem
      (List.mem_map_of_mem Entry.json_path (List.getElem?_mem hj)) hfind none
  have hget : pyDictGet catalog fn = some fs :=
    pyDictGet_of_mem catalog fn fs hkeys hmem
  by_cases hdir : d = "next"
  · subst hdir
    have hjlt : (j + 1) % fs.length < fs.length := Nat.mod_lt _ hn
    refine ⟨fs.get ⟨(j + 1) % fs.length, hjlt⟩, List.getElem?_eq_getElem hjlt, ?_⟩
    rw [navigate, if_neg (by push_neg; exact ⟨hne, hd⟩)]
    simp only [hcur, hget, if_pos rfl]
    rw [emod_next_eq j fs.length]
    simp only [if_true, Int.toNat_ofNat, List.getElem?_eq_getElem hjlt]
    rfl
  · have hjlt : (j + fs.length - 1) % fs.length < fs.length := Nat.mod_lt _ hn
    refine ⟨fs.get ⟨(j + fs.length - 1) % fs.length, hjlt⟩,
      by rw [if_neg hdir]; exact List.getElem?_eq_getElem hjlt, ?_⟩
    rw [navigate, if_neg (by push_neg; exact ⟨hne, hd⟩)]
    simp only [hcur, hget, if_neg hdir]
    rw [emod_prev_eq j fs.length hn]
    simp only [Int.toNat_ofNat, List.getElem?_eq_getElem hjlt]
    rfl

/-- Claim C4: in any catalog with duplicate-free folder names and
globally distinct non-empty entry paths, `navigate(next)` followed by
`navigate(prev)` from the same starting page returns the starting page;
`navigate(next)` on a folder's last entry returns its first entry and
`navigate(prev)` on the first returns the last (both with 1-based
`current_page` and the folder's `total_pages`). -/
theorem navigate_round_trip_and_wraparound (catalog : List (String × List Entry))
    (fn : String) (fs : List Entry) (i : Nat) (e : Entry)
    (hkeys : (catalog.map Prod.fst).Nodup)
    (hpaths : (allPaths catalog).Nodup)
    (h0 : "" ∉ allPaths catalog)
    (hmem : (fn, fs) ∈ catalog)
    (he : fs[i]? = some e) :
    (∃ f, fs[(i + 1) % fs.length]? = some f ∧
      navigate catalog e.json_path "next" =
        .ok ⟨f.json_path, f.image_path, f.name, f.page_num,
             (i + 1) % fs.length + 1, fs.length, fn⟩ ∧
      navigate catalog f.json_path "prev" =
        .ok ⟨e.json_path, e.image_path, e.name, e.page_num,
             i + 1, fs.length, fn⟩) ∧
    (i + 1 = fs.length →
      ∃ f0, fs[0]? = some f0 ∧
        navigate catalog e.json_path "next" =
          .ok ⟨f0.json_path, f0.image_path, f0.name, f0.page_num,
               1, fs.length, fn⟩) ∧
    (i = 0 →
      ∃ fl, fs[fs.length - 1]? = some fl ∧
        navigate catalog e.json_path "prev" =
          .ok ⟨fl.json_path, fl.image_path, fl.name, fl.page_num,
               fs.length, fs.length, fn⟩) := by
  have hlt : i < fs.length := (List.getElem?_eq_some_iff.mp he).1
  have hn : 0 < fs.length := Nat.lt_of_le_of_lt (Nat.zero_le i) hlt
  have path_ne : ∀ x : Entry, x ∈ fs → x.json_path ≠ "" := by
    intro x hx hxe
    apply h0
    rw [← hxe]
    exact (mem_allPaths catalog x.json_path).mpr
      ⟨(fn, fs), hmem, List.mem_map_of_mem Entry.json_path hx⟩
  have hne : e.json_path ≠ "" := path_ne e (List.getElem?_mem he)
  obtain ⟨f, hf, hnavnext⟩ :=
    navigate_eq catalog fn fs i e "next" hkeys hpaths hmem he hne (by decide)
  rw [if_pos rfl] at hf hnavnext
  have hfne : f.json_path ≠ "" := path_ne f (List.getElem?_mem hf)
  obtain ⟨g, hg, hnavprev⟩ :=
    navigate_eq catalog fn fs ((i + 1) % fs.length) f "prev"
      hkeys hpaths hmem hf hfne (by decide)
  rw [if_neg (by decide)] at hg hnavprev
  have hidx : ((i + 1) % fs.length + fs.length - 1) % fs.length = i :=
    mod_round_trip i fs.length hlt
  rw [hidx] at hg hnavprev
  have hge : g = e := Option.some.inj (hg.symm.trans he)
  rw [hge] at hnavprev
  refine ⟨⟨f, hf, hnavnext, hnavprev⟩, ?_, ?_⟩
  · intro hlen
    refine ⟨f, ?_, ?_⟩
    · rw [← hf]
      congr 1
      rw [hlen, Nat.mod_self]
    · rw [hnavnext]
      congr 2
      rw [hlen, Nat.mod_self]
  · intro hi
    subst hi
    obtain ⟨fl, hfl, hnavpl⟩ :=
      navigate_eq catalog fn fs 0 e "prev" hkeys hpaths hmem he hne (by decide)
    rw [if_neg (by decide)] at hfl hnavpl
    have hidx0 : (0 + fs.length - 1) % fs.length = fs.length - 1 := by
      rw [Nat.zero_add]
      exact Nat.mod_eq_of_lt (by omega)
    rw [hidx0] at hfl hnavpl
    refine ⟨fl, hfl, ?_⟩
    rw [hnavpl]
    congr 2
    omega

/-- Witness for C4 at the concrete two-page catalog, starting from the
folder's last entry (so the round trip also crosses the wrap point). -/
theorem navigate_round_trip_and_wraparound_witness :
    ∃ f, [entryP1, entryP2][(1 + 1) % [entryP1, entryP2].length]? = some f ∧
      navigate catalogDocs entryP2.json_path "next" =
        .ok ⟨f.json_path, f.image_path, f.name, f.page_num,
             (1 + 1) % [entryP1, entryP2].length + 1,
             [entryP1, entryP2].length, "docs"⟩ ∧
      navigate catalogDocs f.json_path "prev" =
        .ok ⟨entryP2.json_path, entryP2.image_path, entryP2.name,
             entryP2.page_num, 1 + 1, [entryP1, entryP2].length, "docs"⟩ :=
  (navigate_round_trip_and_wraparound catalogDocs "docs" [entryP1, entryP2] 1 entryP2
    (by decide) (by decide) (by decide) (by decide) (by decide)).1
